import Mathlib

/-!
Shallow embedding of `src/SupraLib/Processing/TorchInference.h` (class
`supra::TorchInference`), together with proofs about the patch-planning loop,
the patch-reassembly copy, the dtype dispatch and the error/null-model control
flow of `TorchInference::process`.

Conventions of the embedding:
* C++ `size_t` values are modelled as `Nat`.  The only subtractions performed
  by the code are shown (under the documented precondition
  `inferencePatchSize > 2 * inferencePatchOverlap`) to have
  minuend ≥ subtrahend, so truncated `Nat` subtraction agrees with `size_t`
  arithmetic on every reachable state.
* The planning `for` loop of `process` (header lines 70-106) is embedded with
  explicit fuel; fuel `numPixels` is enough because every iteration advances
  the cursor by at least one (proved below), and a fuel-irrelevance theorem
  shows the embedded loop is the C++ loop's fixpoint.
* The external collaborators (torch model execution, normalization,
  denormalization) are abstracted as an oracle `exec` that either returns a
  dtype-tagged output-tensor accessor or throws one of the two caught
  exception kinds.  Logging is modelled as a list of `LogMessage` values.
* The element-wise conversion `clampCast<OutputType>` and the model-output
  samples are abstracted by a conversion function `conv : Int → β` and a
  4-dimensional accessor function; none of the claims below depend on the
  numeric conversion itself.
-/

namespace TorchInference

/-- `vec3s` of SUPRA: a 3-tuple of `size_t` extents. -/
structure Vec3s where
  x : Nat
  y : Nat
  z : Nat
deriving DecidableEq, Repr

/-- One iteration's planning result in `process` (header lines 74-106):
the patch window `[startPixel, startPixel + patchSize)` sent to the model and
the valid sub-window `[startPixelValid, startPixelValid + patchSizeValid)`
whose output is written to the final buffer. -/
structure Patch where
  startPixel : Nat
  patchSize : Nat
  startPixelValid : Nat
  patchSizeValid : Nat
deriving DecidableEq, Repr

/-- The body of the planning loop of `process` (header lines 74-105): given the
cursor `startPixelValid`, compute `startPixel`, `patchSize` and
`patchSizeValid` by the four-way branch (whole-axis patch, first patch,
last patch, middle patch). -/
def planStep (numPixels inferencePatchSize inferencePatchOverlap startPixelValid : Nat) :
    Patch :=
  if startPixelValid = 0 ∧ numPixels - startPixelValid ≤ inferencePatchSize then
    -- Special case: the requested patch size is large enough. No patching necessary!
    { startPixel := 0,
      patchSize := numPixels - startPixelValid,
      startPixelValid := startPixelValid,
      patchSizeValid := numPixels - startPixelValid }
  else if startPixelValid = 0 then
    -- The first patch only needs to be padded on the bottom
    { startPixel := 0,
      patchSize := inferencePatchSize,
      startPixelValid := startPixelValid,
      patchSizeValid := inferencePatchSize - inferencePatchOverlap }
  else if numPixels - (startPixelValid - inferencePatchOverlap) ≤ inferencePatchSize then
    -- The last patch only needs to be padded on the top
    { startPixel := startPixelValid - inferencePatchOverlap,
      patchSize := numPixels - (startPixelValid - inferencePatchOverlap),
      startPixelValid := startPixelValid,
      patchSizeValid := numPixels - (startPixelValid - inferencePatchOverlap) - inferencePatchOverlap }
  else
    -- Every patch in the middle: padding on the top and bottom
    { startPixel := startPixelValid - inferencePatchOverlap,
      patchSize := inferencePatchSize,
      startPixelValid := startPixelValid,
      patchSizeValid := inferencePatchSize - 2 * inferencePatchOverlap }

/-- The planning loop of `process` (header lines 70-106), with explicit fuel:
`for (size_t startPixelValid = 0; startPixelValid < numPixels;
startPixelValid += lastValidPixels)`, collecting the emitted
(patch window, valid sub-window) pairs in emission order. -/
def planLoop (numPixels inferencePatchSize inferencePatchOverlap : Nat) :
    Nat → Nat → List Patch
  | 0, _ => []
  | fuel + 1, startPixelValid =>
    if startPixelValid < numPixels then
      planStep numPixels inferencePatchSize inferencePatchOverlap startPixelValid ::
        planLoop numPixels inferencePatchSize inferencePatchOverlap fuel
          (startPixelValid +
            (planStep numPixels inferencePatchSize inferencePatchOverlap
              startPixelValid).patchSizeValid)
    else []

/-- The full sequence of patches planned by `process` for an axis of
`numPixels` pixels.  Fuel `numPixels` suffices: under the documented
precondition every iteration advances the cursor by at least one pixel
(see `planLoop_fuel_irrelevant` for the fixpoint property). -/
def planPatches (numPixels inferencePatchSize inferencePatchOverlap : Nat) : List Patch :=
  planLoop numPixels inferencePatchSize inferencePatchOverlap numPixels 0

/-- Header lines 61-64: `inferencePatchSize == 0` is replaced by
`inputSize.x` (the number of pixels) before planning. -/
def effectiveInferencePatchSize (inferencePatchSize numPixels : Nat) : Nat :=
  if inferencePatchSize = 0 then numPixels else inferencePatchSize

/-- Specification predicate: the list of patches, starting from cursor `s`,
tiles `[s, numPixels)` exactly: each patch's valid sub-window starts where the
previous one ended, has positive length, and the last one ends at
`numPixels`. -/
def tiles (numPixels : Nat) : Nat → List Patch → Prop
  | s, [] => s = numPixels
  | s, p :: ps =>
    p.startPixelValid = s ∧ 0 < p.patchSizeValid ∧
      tiles numPixels (s + p.patchSizeValid) ps

/-- Modelled from the spec: `layoutPermutation` is declared in
`TorchInference.h` (line 290) but its body lives in a translation unit that is
not part of this repository snapshot.  Spec §4.1: given `currentLayout` and
`outLayout` of equal length, `permutation[i]` is the index, in
`currentLayout`, of the axis that occupies position `i` in `outLayout`. -/
def layoutPermutation (currentLayout outLayout : List Char) : List Nat :=
  outLayout.map fun c => currentLayout.indexOf c

/-- The nine range/offset locals of `copyPatchToOutput`
(header lines 236-244). -/
structure OutRanges where
  outSliceStart : Nat
  outSliceEnd : Nat
  outSliceOffset : Nat
  outLineStart : Nat
  outLineEnd : Nat
  outLineOffset : Nat
  outPixelStart : Nat
  outPixelEnd : Nat
  outPixelOffset : Nat
deriving DecidableEq, Repr

/-- The range computation of `copyPatchToOutput` (header lines 236-265):
default every axis to full extent with zero offset, then narrow the one axis
whose position in the permutation holds the value 3, setting its range to the
valid sub-window and its offset to `startPixel`. -/
def computeOutRanges (permutation : List Nat) (outputSize : Vec3s)
    (startPixelValid startPixel patchSizeValid : Nat) : OutRanges :=
  let r : OutRanges := {
    outSliceStart := 0, outSliceEnd := outputSize.z, outSliceOffset := 0,
    outLineStart := 0, outLineEnd := outputSize.y, outLineOffset := 0,
    outPixelStart := 0, outPixelEnd := outputSize.x, outPixelOffset := 0 }
  if permutation.getD 1 0 = 3 then
    { r with outSliceStart := startPixelValid,
             outSliceEnd := startPixelValid + patchSizeValid,
             outSliceOffset := startPixel }
  else if permutation.getD 2 0 = 3 then
    { r with outLineStart := startPixelValid,
             outLineEnd := startPixelValid + patchSizeValid,
             outLineOffset := startPixel }
  else if permutation.getD 3 0 = 3 then
    { r with outPixelStart := startPixelValid,
             outPixelEnd := startPixelValid + patchSizeValid,
             outPixelOffset := startPixel }
  else r

/-- A single assignment `pDataOut->get()[idx] = v` on a buffer modelled as a
total function from flat indices to values. -/
def writeCell {β : Type} (buf : Nat → β) (idx : Nat) (v : β) : Nat → β :=
  fun i => if i = idx then v else buf i

/-- The innermost loop of `copyPatchToOutput` (header lines 271-281): for
`outPixelIdx` from `outPixelStart` to `outPixelEnd`, write `v outPixelIdx` at
flat address `base + outPixelIdx`. -/
def pixelLoopRun {β : Type} (v : Nat → β) (outPixelStart outPixelEnd base : Nat)
    (buf : Nat → β) : Nat → β :=
  (List.range' outPixelStart (outPixelEnd - outPixelStart)).foldl
    (fun b outPixelIdx => writeCell b (base + outPixelIdx) (v outPixelIdx)) buf

/-- The middle loop of `copyPatchToOutput` (header lines 269-282): for
`outLineIdx` from `outLineStart` to `outLineEnd`, run the pixel loop with base
address `sliceBase + outLineIdx * outputSize.x`. -/
def lineLoopRun {β : Type} (v : Nat → Nat → β) (outLineStart outLineEnd outPixelStart outPixelEnd : Nat)
    (sizeX sliceBase : Nat) (buf : Nat → β) : Nat → β :=
  (List.range' outLineStart (outLineEnd - outLineStart)).foldl
    (fun b outLineIdx =>
      pixelLoopRun (v outLineIdx) outPixelStart outPixelEnd
        (sliceBase + outLineIdx * sizeX) b) buf

/-- The outer loop of `copyPatchToOutput` (header lines 267-283): for
`outSliceIdx` from `outSliceStart` to `outSliceEnd`, run the line loop with
slice base address `outSliceIdx * outputSize.y * outputSize.x`. -/
def sliceLoopRun {β : Type} (v : Nat → Nat → Nat → β)
    (outSliceStart outSliceEnd outLineStart outLineEnd outPixelStart outPixelEnd : Nat)
    (sizeX sizeY : Nat) (buf : Nat → β) : Nat → β :=
  (List.range' outSliceStart (outSliceEnd - outSliceStart)).foldl
    (fun b outSliceIdx =>
      lineLoopRun (v outSliceIdx) outLineStart outLineEnd outPixelStart outPixelEnd
        sizeX (outSliceIdx * sizeY * sizeX) b) buf

/-- `TorchInference::copyPatchToOutput` (header lines 222-284).  The model
output tensor's 4-dimensional accessor is `outAccessor`, the conversion
`clampCast<OutputType>` is abstracted by `conv`, and the destination buffer by
a total function `pDataOut`.  Every written cell receives
`conv (outAccessor 0 (slice - sliceOffset) (line - lineOffset)
(pixel - pixelOffset))` at flat row-major address
`slice * outputSize.y * outputSize.x + line * outputSize.x + pixel`. -/
def copyPatchToOutput {β : Type} (conv : Int → β) (outAccessor : Nat → Nat → Nat → Nat → Int)
    (pDataOut : Nat → β) (modelOutputLayout finalLayout : List Char)
    (outputSize : Vec3s) (startPixelValid startPixel patchSizeValid : Nat) : Nat → β :=
  let permutation := layoutPermutation modelOutputLayout finalLayout
  let r := computeOutRanges permutation outputSize startPixelValid startPixel patchSizeValid
  sliceLoopRun
    (fun outSliceIdx outLineIdx outPixelIdx =>
      conv (outAccessor 0 (outSliceIdx - r.outSliceOffset) (outLineIdx - r.outLineOffset)
        (outPixelIdx - r.outPixelOffset)))
    r.outSliceStart r.outSliceEnd r.outLineStart r.outLineEnd r.outPixelStart r.outPixelEnd
    outputSize.x outputSize.y pDataOut

/-- The slice axis holds the valid sub-window (with offset `startPixel`) and
the other two axes keep full extent with zero offset. -/
def sliceNarrowed (r : OutRanges) (outputSize : Vec3s)
    (startPixelValid startPixel patchSizeValid : Nat) : Prop :=
  r.outSliceStart = startPixelValid ∧ r.outSliceEnd = startPixelValid + patchSizeValid ∧
  r.outSliceOffset = startPixel ∧
  r.outLineStart = 0 ∧ r.outLineEnd = outputSize.y ∧ r.outLineOffset = 0 ∧
  r.outPixelStart = 0 ∧ r.outPixelEnd = outputSize.x ∧ r.outPixelOffset = 0

/-- The line axis holds the valid sub-window and the other two axes keep full
extent with zero offset. -/
def lineNarrowed (r : OutRanges) (outputSize : Vec3s)
    (startPixelValid startPixel patchSizeValid : Nat) : Prop :=
  r.outSliceStart = 0 ∧ r.outSliceEnd = outputSize.z ∧ r.outSliceOffset = 0 ∧
  r.outLineStart = startPixelValid ∧ r.outLineEnd = startPixelValid + patchSizeValid ∧
  r.outLineOffset = startPixel ∧
  r.outPixelStart = 0 ∧ r.outPixelEnd = outputSize.x ∧ r.outPixelOffset = 0

/-- The pixel axis holds the valid sub-window and the other two axes keep
full extent with zero offset. -/
def pixelNarrowed (r : OutRanges) (outputSize : Vec3s)
    (startPixelValid startPixel patchSizeValid : Nat) : Prop :=
  r.outSliceStart = 0 ∧ r.outSliceEnd = outputSize.z ∧ r.outSliceOffset = 0 ∧
  r.outLineStart = 0 ∧ r.outLineEnd = outputSize.y ∧ r.outLineOffset = 0 ∧
  r.outPixelStart = startPixelValid ∧ r.outPixelEnd = startPixelValid + patchSizeValid ∧
  r.outPixelOffset = startPixel

/-- All three axes keep full extent with zero offset: no axis narrowed. -/
def noAxisNarrowed (r : OutRanges) (outputSize : Vec3s) : Prop :=
  r.outSliceStart = 0 ∧ r.outSliceEnd = outputSize.z ∧ r.outSliceOffset = 0 ∧
  r.outLineStart = 0 ∧ r.outLineEnd = outputSize.y ∧ r.outLineOffset = 0 ∧
  r.outPixelStart = 0 ∧ r.outPixelEnd = outputSize.x ∧ r.outPixelOffset = 0

/-- The property claimed of every call: exactly one of the three output axes
is narrowed to the valid sub-window (with offset `startPixel`) while the
other two keep full extent and zero offset. -/
def exactlyOneAxisNarrowed (r : OutRanges) (outputSize : Vec3s)
    (startPixelValid startPixel patchSizeValid : Nat) : Prop :=
  sliceNarrowed r outputSize startPixelValid startPixel patchSizeValid ∨
  lineNarrowed r outputSize startPixelValid startPixel patchSizeValid ∨
  pixelNarrowed r outputSize startPixelValid startPixel patchSizeValid

/-- The two exception kinds caught by `process` (header lines 197-207):
`c10::Error` (carrying `what()` and `msg_stack()`) and `std::runtime_error`
(carrying `what()`). -/
inductive ModelError
  | c10Error (what msgStack : String)
  | runtimeError (what : String)
deriving DecidableEq, Repr

/-- The runtime dtype of the model output tensor, as examined by the dispatch
chain of `process` (header lines 159-193). -/
inductive TorchDType
  | int8
  | uint8
  | int16
  | int32
  | int64
  | float16
  | float32
  | float64
  | boolType
deriving DecidableEq, Repr

/-- The slice of SUPRA's `DataType` enumeration that `process` consults:
only the comparison with `TypeHalf` (header line 151) matters. -/
inductive DataType
  | TypeHalf
  | TypeFloat
  | TypeDouble
  | TypeInt8
  | TypeUint8
  | TypeInt16
  | TypeInt32
  | TypeInt64
deriving DecidableEq, Repr

/-- The observable logging effects of `process` (header lines 199-216). -/
inductive LogMessage
  | errorC10WhileRunningModel (modelFilename : String)
  | errorRuntimeWhileRunningModel (modelFilename : String)
  | errorText (text : String)
  | noModelLoaded
  | noNormalizationModule
  | noDenormalizationModule
deriving DecidableEq, Repr

/-- Header lines 151-155: when `modelOutputDataType == TypeHalf` the output
tensor is promoted to `float` before the dtype dispatch (half is not natively
supported on the CPU). -/
def promoteHalf (modelOutputDataType : DataType) (d : TorchDType) : TorchDType :=
  if modelOutputDataType = DataType.TypeHalf then TorchDType.float32 else d

/-- The dtype dispatch of `process` (header lines 159-193): one
`copyPatchToOutput` instantiation per supported dtype, in the order of the
`else if` chain; any other dtype falls through the chain and the buffer is
left untouched. -/
def dispatchCopy {β : Type} (d : TorchDType) (conv : Int → β)
    (outAccessor : Nat → Nat → Nat → Nat → Int) (pDataOut : Nat → β)
    (modelOutputLayout finalLayout : List Char) (outputSize : Vec3s)
    (startPixelValid startPixel patchSizeValid : Nat) : Nat → β :=
  match d with
  | .int8 => copyPatchToOutput conv outAccessor pDataOut modelOutputLayout finalLayout
      outputSize startPixelValid startPixel patchSizeValid
  | .uint8 => copyPatchToOutput conv outAccessor pDataOut modelOutputLayout finalLayout
      outputSize startPixelValid startPixel patchSizeValid
  | .int16 => copyPatchToOutput conv outAccessor pDataOut modelOutputLayout finalLayout
      outputSize startPixelValid startPixel patchSizeValid
  | .int32 => copyPatchToOutput conv outAccessor pDataOut modelOutputLayout finalLayout
      outputSize startPixelValid startPixel patchSizeValid
  | .int64 => copyPatchToOutput conv outAccessor pDataOut modelOutputLayout finalLayout
      outputSize startPixelValid startPixel patchSizeValid
  | .float32 => copyPatchToOutput conv outAccessor pDataOut modelOutputLayout finalLayout
      outputSize startPixelValid startPixel patchSizeValid
  | .float64 => copyPatchToOutput conv outAccessor pDataOut modelOutputLayout finalLayout
      outputSize startPixelValid startPixel patchSizeValid
  | _ => pDataOut

/-- The dtypes for which the dispatch chain of `process` performs a copy. -/
def supportedCopyDTypes : List TorchDType :=
  [.int8, .uint8, .int16, .int32, .int64, .float32, .float64]

/-- One iteration of the patch loop of `process` after planning (header lines
108-193): run the model on the patch via the oracle `exec` (covering slicing,
conversion, layout change, normalization, `forward`, denormalization and the
transfer to the CPU); on success, promote half to float and dispatch the copy
on the output dtype.  A thrown exception propagates. -/
def runPatch {β : Type} (exec : Patch → Except ModelError (TorchDType × (Nat → Nat → Nat → Nat → Int)))
    (modelOutputDataType : DataType) (conv : Int → β)
    (modelOutputLayout finalLayout : List Char) (outputSize : Vec3s)
    (p : Patch) (pDataOut : Nat → β) : Except ModelError (Nat → β) :=
  match exec p with
  | .error e => .error e
  | .ok (d, outAccessor) =>
    .ok (dispatchCopy (promoteHalf modelOutputDataType d) conv outAccessor pDataOut
      modelOutputLayout finalLayout outputSize p.startPixelValid p.startPixel p.patchSizeValid)

/-- The patch loop of `process` over an already-planned patch list.  On an
exception the loop aborts, yielding the exception together with the buffer in
its state at the throw (the writes of the preceding patches persist). -/
def runPatches {β : Type} (exec : Patch → Except ModelError (TorchDType × (Nat → Nat → Nat → Nat → Int)))
    (modelOutputDataType : DataType) (conv : Int → β)
    (modelOutputLayout finalLayout : List Char) (outputSize : Vec3s) :
    List Patch → (Nat → β) → Except (ModelError × (Nat → β)) (Nat → β)
  | [], pDataOut => .ok pDataOut
  | p :: ps, pDataOut =>
    match runPatch exec modelOutputDataType conv modelOutputLayout finalLayout outputSize
        p pDataOut with
    | .error e => .error (e, pDataOut)
    | .ok pDataOut2 =>
      runPatches exec modelOutputDataType conv modelOutputLayout finalLayout outputSize
        ps pDataOut2

/-- The catch handlers of `process` (header lines 197-207): both log the model
filename and the diagnostic text of the exception. -/
def catchLog (modelFilename : String) : ModelError → List LogMessage
  | .c10Error what msgStack =>
    [.errorC10WhileRunningModel modelFilename, .errorText what, .errorText msgStack]
  | .runtimeError what =>
    [.errorRuntimeWhileRunningModel modelFilename, .errorText what]

/-- `TorchInference::process` (header lines 34-220), at the level of its
observable control flow.  If a model is loaded: replace a zero
`inferencePatchSize` by `inputSize.x`, allocate the output container
(modelled by taking the arbitrary initial contents `initBuf`), run the patch
loop over the planned patches, and on an exception log the catch-handler
messages — `pDataOut` stays allocated, so the partially filled buffer is
returned.  If no model is loaded: log the module diagnostics and return the
null container; the output buffer is never allocated. -/
def process {β : Type} (moduleLoaded normLoaded denormLoaded : Bool) (modelFilename : String)
    (exec : Patch → Except ModelError (TorchDType × (Nat → Nat → Nat → Nat → Int)))
    (conv : Int → β) (initBuf : Nat → β) (inputSize outputSize : Vec3s)
    (modelOutputDataType : DataType) (modelOutputLayout finalLayout : List Char)
    (inferencePatchSize inferencePatchOverlap : Nat) :
    Option (Nat → β) × List LogMessage :=
  if moduleLoaded then
    match runPatches exec modelOutputDataType conv modelOutputLayout finalLayout outputSize
        (planPatches inputSize.x (effectiveInferencePatchSize inferencePatchSize inputSize.x)
          inferencePatchOverlap) initBuf with
    | .ok pDataOut => (some pDataOut, [])
    | .error (e, pDataOut) => (some pDataOut, catchLog modelFilename e)
  else
    (none,
      [LogMessage.noModelLoaded] ++
        (if normLoaded then [] else [LogMessage.noNormalizationModule]) ++
        (if denormLoaded then [] else [LogMessage.noDenormalizationModule]))

/-! ### Planner lemmas -/

/-- Branch analysis of `planStep`, done once: under the asserted precondition
`inferencePatchSize > 2 * inferencePatchOverlap` and the loop invariant on the
cursor, the emitted patch records the cursor, makes strictly positive
progress that stays within the axis, keeps the valid sub-window inside the
patch window, never exceeds the requested patch size, and re-establishes the
cursor invariant. -/
theorem planStep_spec (n ps ov s : Nat) (hpre : 2 * ov < ps) (hs : s < n)
    (hinv : s = 0 ∨ n ≤ s ∨ ps - ov ≤ s) :
    (planStep n ps ov s).startPixelValid = s ∧
    0 < (planStep n ps ov s).patchSizeValid ∧
    s + (planStep n ps ov s).patchSizeValid ≤ n ∧
    (n ≤ s + (planStep n ps ov s).patchSizeValid ∨
      ps - ov ≤ s + (planStep n ps ov s).patchSizeValid) ∧
    (planStep n ps ov s).startPixel ≤ s ∧
    s + (planStep n ps ov s).patchSizeValid ≤
      (planStep n ps ov s).startPixel + (planStep n ps ov s).patchSize ∧
    (planStep n ps ov s).patchSize ≤ ps := by
  unfold planStep
  split_ifs with h1 h2 h3 <;> dsimp only <;> omega

/-- Once the cursor has reached the end of the axis, the loop body never runs
again, whatever fuel remains. -/
theorem planLoop_at_end (n ps ov : Nat) (fuel s : Nat) (h : n ≤ s) :
    planLoop n ps ov fuel s = [] := by
  cases fuel with
  | zero => rfl
  | succ fuel => simp [planLoop, Nat.not_lt.mpr h]

/-- Master invariant of the planning loop: with enough fuel and the cursor
invariant, the emitted patches tile `[s, numPixels)` exactly, and every
emitted patch contains its valid sub-window in its patch window, never
exceeds the requested patch size, and has a cursor that is either `0` or at
least `inferencePatchSize - inferencePatchOverlap`. -/
theorem planLoop_sound (n ps ov : Nat) (hpre : 2 * ov < ps) :
    ∀ fuel s, s ≤ n → (s = 0 ∨ n ≤ s ∨ ps - ov ≤ s) → n - s ≤ fuel →
      tiles n s (planLoop n ps ov fuel s) ∧
      ∀ p ∈ planLoop n ps ov fuel s,
        p.startPixel ≤ p.startPixelValid ∧
        p.startPixelValid + p.patchSizeValid ≤ p.startPixel + p.patchSize ∧
        p.patchSize ≤ ps ∧
        (p.startPixelValid = 0 ∨ ps - ov ≤ p.startPixelValid) := by
  intro fuel
  induction fuel with
  | zero =>
    intro s hsn _ hfuel
    have hseq : s = n := by omega
    simp [planLoop, tiles, hseq]
  | succ fuel ih =>
    intro s hsn hinv hfuel
    by_cases hlt : s < n
    · obtain ⟨hcur, hpos, hle, hinv2, hsp, hcont, hsz⟩ := planStep_spec n ps ov s hpre hlt hinv
      have hrec := ih (s + (planStep n ps ov s).patchSizeValid) (by omega)
        (by omega) (by omega)
      constructor
      · simp only [planLoop, if_pos hlt]
        exact ⟨hcur, hpos, hrec.1⟩
      · intro q hq
        simp only [planLoop, if_pos hlt, List.mem_cons] at hq
        rcases hq with hq | hq
        · subst hq
          exact ⟨by omega, by omega, hsz, by omega⟩
        · exact hrec.2 q hq
    · rw [planLoop_at_end n ps ov _ s (by omega)]
      have hseq : s = n := by omega
      simp [tiles, hseq]

/-- Fuel irrelevance: any two fuel amounts that are at least the remaining
distance to the end of the axis produce the same patch list; so the embedded
loop computes the unique fixpoint of the C++ loop, which terminates. -/
theorem planLoop_fuel_irrelevant (n ps ov : Nat) (hpre : 2 * ov < ps) :
    ∀ fuel fuel' s, s ≤ n → (s = 0 ∨ n ≤ s ∨ ps - ov ≤ s) →
      n - s ≤ fuel → n - s ≤ fuel' →
      planLoop n ps ov fuel s = planLoop n ps ov fuel' s := by
  intro fuel
  induction fuel with
  | zero =>
    intro fuel' s hsn hinv hfuel hfuel'
    rw [planLoop_at_end n ps ov fuel' s (by omega)]
    rfl
  | succ fuel ih =>
    intro fuel' s hsn hinv hfuel hfuel'
    by_cases hlt : s < n
    · have hstep := planStep_spec n ps ov s hpre hlt hinv
      cases fuel' with
      | zero => omega
      | succ fuel' =>
        simp only [planLoop, if_pos hlt]
        rw [ih fuel' (s + (planStep n ps ov s).patchSizeValid) (by omega) (by omega)
          (by omega) (by omega)]
    · rw [planLoop_at_end n ps ov _ s (by omega), planLoop_at_end n ps ov fuel' s (by omega)]

/-- A tiling's cursor never exceeds the end of the axis. -/
theorem tiles_le (n : Nat) : ∀ (l : List Patch) (s : Nat), tiles n s l → s ≤ n := by
  intro l
  induction l with
  | nil => intro s h; simp only [tiles] at h; omega
  | cons p ps ih =>
    intro s h
    simp only [tiles] at h
    have := ih (s + p.patchSizeValid) h.2.2
    omega

/-- Counting version of the tiling invariant: each axis position `k` is
covered by exactly one valid sub-window if `s ≤ k < numPixels`, and by none
otherwise. -/
theorem tiles_countP (n : Nat) : ∀ (l : List Patch) (s : Nat), tiles n s l →
    ∀ k, (l.countP fun p =>
        decide (p.startPixelValid ≤ k ∧ k < p.startPixelValid + p.patchSizeValid)) =
      if s ≤ k ∧ k < n then 1 else 0 := by
  intro l
  induction l with
  | nil =>
    intro s h k
    simp only [tiles] at h
    simp only [List.countP_nil]
    split_ifs <;> omega
  | cons p ps ih =>
    intro s h k
    simp only [tiles] at h
    have hle := tiles_le n ps (s + p.patchSizeValid) h.2.2
    rw [List.countP_cons, ih (s + p.patchSizeValid) h.2.2 k]
    rcases h with ⟨hstart, hpos, _⟩
    simp only [decide_eq_true_eq]
    split_ifs <;> omega

/-- Every patch of a tiling starts at or after the tiling's initial cursor. -/
theorem tiles_start_le (n : Nat) : ∀ (l : List Patch) (s : Nat), tiles n s l →
    ∀ p ∈ l, s ≤ p.startPixelValid := by
  intro l
  induction l with
  | nil => intro s _ p hp; cases hp
  | cons q qs ih =>
    intro s h p hp
    simp only [tiles] at h
    rcases List.mem_cons.mp hp with hq | hq
    · subst hq; omega
    · have := ih (s + q.patchSizeValid) h.2.2 p hq
      omega

/-- The valid sub-windows of a tiling are emitted in strictly increasing
order of `startPixelValid`. -/
theorem tiles_pairwise (n : Nat) : ∀ (l : List Patch) (s : Nat), tiles n s l →
    l.Pairwise fun p q => p.startPixelValid < q.startPixelValid := by
  intro l
  induction l with
  | nil => intro s _; exact List.Pairwise.nil
  | cons p ps ih =>
    intro s h
    simp only [tiles] at h
    refine List.Pairwise.cons ?_ (ih (s + p.patchSizeValid) h.2.2)
    intro q hq
    have := tiles_start_le n ps (s + p.patchSizeValid) h.2.2 q hq
    omega

/-- Every patch of a tiling has a strictly positive valid length. -/
theorem tiles_pos (n : Nat) : ∀ (l : List Patch) (s : Nat), tiles n s l →
    ∀ p ∈ l, 0 < p.patchSizeValid := by
  intro l
  induction l with
  | nil => intro s _ p hp; cases hp
  | cons q qs ih =>
    intro s h p hp
    simp only [tiles] at h
    rcases List.mem_cons.mp hp with hq | hq
    · subst hq; exact h.2.1
    · exact ih (s + q.patchSizeValid) h.2.2 p hq

/-! ### Copy-loop lemmas

The three nested loops of `copyPatchToOutput` are characterized cell by cell:
a `miss` lemma (the loop leaves an address it never writes unchanged) and a
`hit` lemma (the cell of a coordinate inside the ranges receives the value of
its own iteration) per nesting level. -/

/-- The pixel loop never changes an address it does not write. -/
theorem pixelLoopAux_miss {β : Type} (v : Nat → β) (base : Nat) :
    ∀ (cnt a : Nat) (buf : Nat → β) (i : Nat),
      (∀ q, a ≤ q → q < a + cnt → base + q ≠ i) →
      ((List.range' a cnt).foldl (fun b q => writeCell b (base + q) (v q)) buf) i = buf i := by
  intro cnt
  induction cnt with
  | zero => intro a buf i _; rfl
  | succ cnt ih =>
    intro a buf i h
    rw [List.range'_succ]
    simp only [List.foldl_cons]
    rw [ih (a + 1) _ i fun q hq1 hq2 => h q (by omega) (by omega)]
    unfold writeCell
    rw [if_neg fun he => h a (Nat.le_refl a) (by omega) he.symm]

/-- The pixel loop writes the cell of every pixel in its range with that
pixel's value. -/
theorem pixelLoopAux_hit {β : Type} (v : Nat → β) (base : Nat) :
    ∀ (cnt a : Nat) (buf : Nat → β) (p : Nat), a ≤ p → p < a + cnt →
      ((List.range' a cnt).foldl (fun b q => writeCell b (base + q) (v q)) buf) (base + p) =
        v p := by
  intro cnt
  induction cnt with
  | zero => intro a buf p h1 h2; omega
  | succ cnt ih =>
    intro a buf p h1 h2
    rw [List.range'_succ]
    simp only [List.foldl_cons]
    by_cases hpa : p = a
    · subst hpa
      rw [pixelLoopAux_miss v base cnt (p + 1) _ (base + p) fun q hq1 hq2 => by omega]
      unfold writeCell
      rw [if_pos rfl]
    · exact ih (a + 1) _ p (by omega) (by omega)

/-- `miss` for `pixelLoopRun` in terms of the half-open range bounds. -/
theorem pixelLoopRun_miss {β : Type} (v : Nat → β) (pS pE base : Nat) (buf : Nat → β)
    (i : Nat) (h : ∀ q, pS ≤ q → q < pE → base + q ≠ i) :
    pixelLoopRun v pS pE base buf i = buf i :=
  pixelLoopAux_miss v base (pE - pS) pS buf i fun q hq1 hq2 => h q hq1 (by omega)

/-- `hit` for `pixelLoopRun` in terms of the half-open range bounds. -/
theorem pixelLoopRun_hit {β : Type} (v : Nat → β) (pS pE base : Nat) (buf : Nat → β)
    (p : Nat) (h1 : pS ≤ p) (h2 : p < pE) :
    pixelLoopRun v pS pE base buf (base + p) = v p :=
  pixelLoopAux_hit v base (pE - pS) pS buf p h1 (by omega)

/-- The line loop never changes an address it does not write. -/
theorem lineLoopAux_miss {β : Type} (v : Nat → Nat → β) (pS pE X S : Nat) :
    ∀ (cnt a : Nat) (buf : Nat → β) (i : Nat),
      (∀ l q, a ≤ l → l < a + cnt → pS ≤ q → q < pE → S + l * X + q ≠ i) →
      ((List.range' a cnt).foldl
        (fun b l => pixelLoopRun (v l) pS pE (S + l * X) b) buf) i = buf i := by
  intro cnt
  induction cnt with
  | zero => intro a buf i _; rfl
  | succ cnt ih =>
    intro a buf i h
    rw [List.range'_succ]
    simp only [List.foldl_cons]
    rw [ih (a + 1) _ i fun l q hl1 hl2 hq1 hq2 => h l q (by omega) (by omega) hq1 hq2]
    exact pixelLoopRun_miss (v a) pS pE (S + a * X) buf i fun q hq1 hq2 =>
      h a q (Nat.le_refl a) (by omega) hq1 hq2

/-- The line loop writes the cell of every (line, pixel) coordinate in its
ranges with that iteration's value.  The pixel range must stay inside the
line stride `X` so that distinct lines write disjoint addresses. -/
theorem lineLoopAux_hit {β : Type} (v : Nat → Nat → β) (pS pE X S : Nat) (hpE : pE ≤ X) :
    ∀ (cnt a : Nat) (buf : Nat → β) (l p : Nat), a ≤ l → l < a + cnt → pS ≤ p → p < pE →
      ((List.range' a cnt).foldl
        (fun b q => pixelLoopRun (v q) pS pE (S + q * X) b) buf) (S + l * X + p) =
        v l p := by
  intro cnt
  induction cnt with
  | zero => intro a buf l p h1 h2 h3 h4; omega
  | succ cnt ih =>
    intro a buf l p h1 h2 h3 h4
    rw [List.range'_succ]
    simp only [List.foldl_cons]
    by_cases hla : l = a
    · subst hla
      rw [lineLoopAux_miss v pS pE X S cnt (l + 1) _ (S + l * X + p) ?_]
      · exact pixelLoopRun_hit (v l) pS pE (S + l * X) buf p h3 h4
      · intro l2 q hl1 hl2 hq1 hq2
        have e1 : (l + 1) * X = l * X + X := Nat.succ_mul l X
        have e2 : (l + 1) * X ≤ l2 * X := Nat.mul_le_mul_right X (by omega)
        omega
    · exact ih (a + 1) _ l p (by omega) (by omega) h3 h4

/-- `miss` for `lineLoopRun` in terms of the half-open range bounds. -/
theorem lineLoopRun_miss {β : Type} (v : Nat → Nat → β) (lS lE pS pE X S : Nat)
    (buf : Nat → β) (i : Nat)
    (h : ∀ l q, lS ≤ l → l < lE → pS ≤ q → q < pE → S + l * X + q ≠ i) :
    lineLoopRun v lS lE pS pE X S buf i = buf i :=
  lineLoopAux_miss v pS pE X S (lE - lS) lS buf i
    fun l q hl1 hl2 hq1 hq2 => h l q hl1 (by omega) hq1 hq2

/-- `hit` for `lineLoopRun` in terms of the half-open range bounds. -/
theorem lineLoopRun_hit {β : Type} (v : Nat → Nat → β) (lS lE pS pE X S : Nat)
    (hpE : pE ≤ X) (buf : Nat → β) (l p : Nat)
    (h1 : lS ≤ l) (h2 : l < lE) (h3 : pS ≤ p) (h4 : p < pE) :
    lineLoopRun v lS lE pS pE X S buf (S + l * X + p) = v l p :=
  lineLoopAux_hit v pS pE X S hpE (lE - lS) lS buf l p h1 (by omega) h3 h4

/-- The slice loop never changes an address it does not write. -/
theorem sliceLoopAux_miss {β : Type} (v : Nat → Nat → Nat → β) (lS lE pS pE X Y : Nat) :
    ∀ (cnt a : Nat) (buf : Nat → β) (i : Nat),
      (∀ s l q, a ≤ s → s < a + cnt → lS ≤ l → l < lE → pS ≤ q → q < pE →
        s * Y * X + l * X + q ≠ i) →
      ((List.range' a cnt).foldl
        (fun b s => lineLoopRun (v s) lS lE pS pE X (s * Y * X) b) buf) i = buf i := by
  intro cnt
  induction cnt with
  | zero => intro a buf i _; rfl
  | succ cnt ih =>
    intro a buf i h
    rw [List.range'_succ]
    simp only [List.foldl_cons]
    rw [ih (a + 1) _ i fun s l q hs1 hs2 hl1 hl2 hq1 hq2 =>
      h s l q (by omega) (by omega) hl1 hl2 hq1 hq2]
    exact lineLoopRun_miss (v a) lS lE pS pE X (a * Y * X) buf i fun l q hl1 hl2 hq1 hq2 =>
      h a l q (Nat.le_refl a) (by omega) hl1 hl2 hq1 hq2

/-- The slice loop writes the cell of every (slice, line, pixel) coordinate in
its ranges with that iteration's value.  The line and pixel ranges must stay
inside the extents `Y` and `X` so that distinct slices write disjoint
addresses. -/
theorem sliceLoopAux_hit {β : Type} (v : Nat → Nat → Nat → β) (lS lE pS pE X Y : Nat)
    (hlE : lE ≤ Y) (hpE : pE ≤ X) :
    ∀ (cnt a : Nat) (buf : Nat → β) (s l p : Nat), a ≤ s → s < a + cnt →
      lS ≤ l → l < lE → pS ≤ p → p < pE →
      ((List.range' a cnt).foldl
        (fun b q => lineLoopRun (v q) lS lE pS pE X (q * Y * X) b) buf)
        (s * Y * X + l * X + p) = v s l p := by
  intro cnt
  induction cnt with
  | zero => intro a buf s l p h1 h2 h3 h4 h5 h6; omega
  | succ cnt ih =>
    intro a buf s l p h1 h2 h3 h4 h5 h6
    rw [List.range'_succ]
    simp only [List.foldl_cons]
    by_cases hsa : s = a
    · subst hsa
      rw [sliceLoopAux_miss v lS lE pS pE X Y cnt (s + 1) _ (s * Y * X + l * X + p) ?_]
      · exact lineLoopRun_hit (v s) lS lE pS pE X (s * Y * X) hpE buf l p h3 h4 h5 h6
      · intro s2 l2 q hs1 hs2 hl1 hl2 hq1 hq2
        have e1 : (s + 1) * Y = s * Y + Y := Nat.succ_mul s Y
        have e2 : (s * Y + Y) * X = s * Y * X + Y * X := Nat.add_mul (s * Y) Y X
        have e3 : (s + 1) * Y * X ≤ s2 * Y * X :=
          Nat.mul_le_mul_right X (Nat.mul_le_mul_right Y (by omega))
        have e4 : (l + 1) * X = l * X + X := Nat.succ_mul l X
        have e5 : (l + 1) * X ≤ Y * X := Nat.mul_le_mul_right X (by omega)
        have e6 : (s + 1) * Y * X = (s * Y + Y) * X := by rw [e1]
        omega
    · exact ih (a + 1) _ s l p (by omega) (by omega) h3 h4 h5 h6

/-- `miss` for `sliceLoopRun` in terms of the half-open range bounds. -/
theorem sliceLoopRun_miss {β : Type} (v : Nat → Nat → Nat → β)
    (sS sE lS lE pS pE X Y : Nat) (buf : Nat → β) (i : Nat)
    (h : ∀ s l q, sS ≤ s → s < sE → lS ≤ l → l < lE → pS ≤ q → q < pE →
      s * Y * X + l * X + q ≠ i) :
    sliceLoopRun v sS sE lS lE pS pE X Y buf i = buf i :=
  sliceLoopAux_miss v lS lE pS pE X Y (sE - sS) sS buf i
    fun s l q hs1 hs2 hl1 hl2 hq1 hq2 => h s l q hs1 (by omega) hl1 hl2 hq1 hq2

/-- `hit` for `sliceLoopRun` in terms of the half-open range bounds. -/
theorem sliceLoopRun_hit {β : Type} (v : Nat → Nat → Nat → β)
    (sS sE lS lE pS pE X Y : Nat) (hlE : lE ≤ Y) (hpE : pE ≤ X) (buf : Nat → β)
    (s l p : Nat) (h1 : sS ≤ s) (h2 : s < sE) (h3 : lS ≤ l) (h4 : l < lE)
    (h5 : pS ≤ p) (h6 : p < pE) :
    sliceLoopRun v sS sE lS lE pS pE X Y buf (s * Y * X + l * X + p) = v s l p :=
  sliceLoopAux_hit v lS lE pS pE X Y hlE hpE (sE - sS) sS buf s l p h1 (by omega) h3 h4 h5 h6

/-- Injectivity of the row-major address map on in-extent coordinates. -/
theorem mul_add_lt_cancel (k a r a2 r2 : Nat) (hr : r < k) (hr2 : r2 < k)
    (h : a * k + r = a2 * k + r2) : a = a2 ∧ r = r2 := by
  have hk : 0 < k := by omega
  have d1 : (a * k + r) / k = a := by
    rw [Nat.mul_comm a k, Nat.mul_add_div hk, Nat.div_eq_of_lt hr, Nat.add_zero]
  have d2 : (a2 * k + r2) / k = a2 := by
    rw [Nat.mul_comm a2 k, Nat.mul_add_div hk, Nat.div_eq_of_lt hr2, Nat.add_zero]
  have ha : a = a2 := by rw [← d1, ← d2, h]
  subst ha
  exact ⟨rfl, by omega⟩

/-- Two in-extent coordinates with the same row-major flat address are
equal. -/
theorem flatAddr_inj (Y X s l p s2 l2 p2 : Nat) (hl : l < Y) (hp : p < X)
    (hl2 : l2 < Y) (hp2 : p2 < X)
    (h : s * Y * X + l * X + p = s2 * Y * X + l2 * X + p2) :
    s = s2 ∧ l = l2 ∧ p = p2 := by
  have k1 : l * X + p < Y * X := by
    have e1 : (l + 1) * X = l * X + X := Nat.succ_mul l X
    have e2 : (l + 1) * X ≤ Y * X := Nat.mul_le_mul_right X (by omega)
    omega
  have k2 : l2 * X + p2 < Y * X := by
    have e1 : (l2 + 1) * X = l2 * X + X := Nat.succ_mul l2 X
    have e2 : (l2 + 1) * X ≤ Y * X := Nat.mul_le_mul_right X (by omega)
    omega
  rw [Nat.mul_assoc s Y X, Nat.mul_assoc s2 Y X] at h
  have h2 : s * (Y * X) + (l * X + p) = s2 * (Y * X) + (l2 * X + p2) := by omega
  obtain ⟨hs, hr⟩ := mul_add_lt_cancel (Y * X) s (l * X + p) s2 (l2 * X + p2) k1 k2 h2
  obtain ⟨hll, hpp⟩ := mul_add_lt_cancel X l p l2 p2 hp hp2 hr
  exact ⟨hs, hll, hpp⟩

/-- `copyPatchToOutput` unfolded to the slice loop over the computed
ranges. -/
theorem copyPatchToOutput_def {β : Type} (conv : Int → β)
    (outAccessor : Nat → Nat → Nat → Nat → Int) (pDataOut : Nat → β)
    (modelOutputLayout finalLayout : List Char) (outputSize : Vec3s)
    (startPixelValid startPixel patchSizeValid : Nat) :
    copyPatchToOutput conv outAccessor pDataOut modelOutputLayout finalLayout outputSize
        startPixelValid startPixel patchSizeValid =
      sliceLoopRun
        (fun outSliceIdx outLineIdx outPixelIdx =>
          conv (outAccessor 0
            (outSliceIdx - (computeOutRanges (layoutPermutation modelOutputLayout finalLayout)
              outputSize startPixelValid startPixel patchSizeValid).outSliceOffset)
            (outLineIdx - (computeOutRanges (layoutPermutation modelOutputLayout finalLayout)
              outputSize startPixelValid startPixel patchSizeValid).outLineOffset)
            (outPixelIdx - (computeOutRanges (layoutPermutation modelOutputLayout finalLayout)
              outputSize startPixelValid startPixel patchSizeValid).outPixelOffset)))
        (computeOutRanges (layoutPermutation modelOutputLayout finalLayout) outputSize
          startPixelValid startPixel patchSizeValid).outSliceStart
        (computeOutRanges (layoutPermutation modelOutputLayout finalLayout) outputSize
          startPixelValid startPixel patchSizeValid).outSliceEnd
        (computeOutRanges (layoutPermutation modelOutputLayout finalLayout) outputSize
          startPixelValid startPixel patchSizeValid).outLineStart
        (computeOutRanges (layoutPermutation modelOutputLayout finalLayout) outputSize
          startPixelValid startPixel patchSizeValid).outLineEnd
        (computeOutRanges (layoutPermutation modelOutputLayout finalLayout) outputSize
          startPixelValid startPixel patchSizeValid).outPixelStart
        (computeOutRanges (layoutPermutation modelOutputLayout finalLayout) outputSize
          startPixelValid startPixel patchSizeValid).outPixelEnd
        outputSize.x outputSize.y pDataOut := rfl

/-! ### Claim theorems -/

/-- C1: for every `numPixels > 0` and every `patchSize`, `overlap` with
`patchSize > 2*overlap`, the valid sub-windows of the pairs computed by the
planning loop in `process` cover every position of `[0, numPixels)` exactly
once — no position covered twice, none missed, nothing outside the axis —
and they are emitted in strictly increasing order of `startPixelValid`. -/
theorem planPatches_exactly_covers (numPixels patchSize overlap : Nat)
    (hn : 0 < numPixels) (hpre : 2 * overlap < patchSize) :
    (∀ k, ((planPatches numPixels patchSize overlap).countP fun p =>
        decide (p.startPixelValid ≤ k ∧ k < p.startPixelValid + p.patchSizeValid)) =
      if k < numPixels then 1 else 0) ∧
    (planPatches numPixels patchSize overlap).Pairwise
      fun p q => p.startPixelValid < q.startPixelValid := by
  have hsound := planLoop_sound numPixels patchSize overlap hpre numPixels 0
    (by omega) (by omega) (by omega)
  constructor
  · intro k
    have h := tiles_countP numPixels _ 0 hsound.1 k
    unfold planPatches
    rw [h]
    split_ifs <;> omega
  · exact tiles_pairwise numPixels _ 0 hsound.1

/-- Witness for C1 at the spec's own scenario `numPixels = 10`,
`patchSize = 4`, `overlap = 1`: position 7 is covered exactly once and the
emission order is strictly increasing. -/
theorem planPatches_exactly_covers_witness :
    ((planPatches 10 4 1).countP fun p =>
      decide (p.startPixelValid ≤ 7 ∧ 7 < p.startPixelValid + p.patchSizeValid)) = 1 ∧
    (planPatches 10 4 1).Pairwise fun p q => p.startPixelValid < q.startPixelValid := by
  have h := planPatches_exactly_covers 10 4 1 (by decide) (by decide)
  exact ⟨by simpa using h.1 7, h.2⟩

/-- C3: under the precondition `patchSize > 2*overlap`, every iteration of
the planning loop makes strictly positive progress (`patchSizeValid > 0`),
the loop stops as soon as the cursor reaches `numPixels`, and it terminates
for every `numPixels`: fuel beyond `numPixels` never changes the result, so
the embedded loop is the terminating fixpoint of the C++ loop. -/
theorem planLoop_progress_and_terminates (numPixels patchSize overlap : Nat)
    (hpre : 2 * overlap < patchSize) :
    (∀ p ∈ planPatches numPixels patchSize overlap, 0 < p.patchSizeValid) ∧
    (∀ fuel startPixelValid, numPixels ≤ startPixelValid →
      planLoop numPixels patchSize overlap fuel startPixelValid = []) ∧
    (∀ extra, planLoop numPixels patchSize overlap (numPixels + extra) 0 =
      planPatches numPixels patchSize overlap) := by
  refine ⟨?_, ?_, ?_⟩
  · have hsound := planLoop_sound numPixels patchSize overlap hpre numPixels 0
      (by omega) (by omega) (by omega)
    exact tiles_pos numPixels _ 0 hsound.1
  · exact fun fuel s h => planLoop_at_end numPixels patchSize overlap fuel s h
  · intro extra
    exact planLoop_fuel_irrelevant numPixels patchSize overlap hpre (numPixels + extra)
      numPixels 0 (by omega) (by omega) (by omega) (by omega)

/-- Witness for C3: with `numPixels = 10`, `patchSize = 4`, `overlap = 1`,
extra fuel does not change the plan, and the loop body never runs once the
cursor has reached the end. -/
theorem planLoop_progress_and_terminates_witness :
    planLoop 10 4 1 12 0 = planPatches 10 4 1 ∧ planLoop 10 4 1 5 10 = [] := by
  have h := planLoop_progress_and_terminates 10 4 1 (by decide)
  exact ⟨h.2.2 2, h.2.1 5 10 (by decide)⟩

/-- C4: under the precondition `patchSize > 2*overlap`, every emitted valid
sub-window `[startPixelValid, startPixelValid + patchSizeValid)` is contained
in its patch window `[startPixel, startPixel + patchSize)`, and the patch
window length never exceeds the requested `inferencePatchSize`. -/
theorem planPatches_window_contains_valid (numPixels patchSize overlap : Nat)
    (hpre : 2 * overlap < patchSize) :
    ∀ p ∈ planPatches numPixels patchSize overlap,
      p.startPixel ≤ p.startPixelValid ∧
      p.startPixelValid + p.patchSizeValid ≤ p.startPixel + p.patchSize ∧
      p.patchSize ≤ patchSize := by
  have hsound := planLoop_sound numPixels patchSize overlap hpre numPixels 0
    (by omega) (by omega) (by omega)
  intro p hp
  obtain ⟨h1, h2, h3, _⟩ := hsound.2 p hp
  exact ⟨h1, h2, h3⟩

/-- Witness for C4 at the second patch of the `10/4/1` scenario: window
`[2, 6)` contains valid sub-window `[3, 5)` and has length `4 ≤ 4`. -/
theorem planPatches_window_contains_valid_witness :
    (2 : Nat) ≤ 3 ∧ 3 + 2 ≤ 2 + 4 ∧ (4 : Nat) ≤ 4 :=
  planPatches_window_contains_valid 10 4 1 (by decide)
    { startPixel := 2, patchSize := 4, startPixelValid := 3, patchSizeValid := 2 }
    (by decide)

/-- C10: under the precondition `patchSize > 2*overlap`, whenever the cursor
`startPixelValid` is positive at the top of a planning iteration it is at
least `patchSize - overlap`, which itself exceeds `overlap`; hence the
`size_t` subtraction `startPixelValid - inferencePatchOverlap` of the
last-patch and middle-patch branches never wraps around. -/
theorem planPatches_no_wraparound (numPixels patchSize overlap : Nat)
    (hpre : 2 * overlap < patchSize) :
    ∀ p ∈ planPatches numPixels patchSize overlap, 0 < p.startPixelValid →
      patchSize - overlap ≤ p.startPixelValid ∧ overlap < patchSize - overlap := by
  have hsound := planLoop_sound numPixels patchSize overlap hpre numPixels 0
    (by omega) (by omega) (by omega)
  intro p hp hpos
  have h := (hsound.2 p hp).2.2.2
  omega

/-- Witness for C10 at the second patch of the `10/4/1` scenario: cursor 3
satisfies `4 - 1 ≤ 3` and `1 < 4 - 1`. -/
theorem planPatches_no_wraparound_witness : 4 - 1 ≤ 3 ∧ 1 < 4 - 1 :=
  planPatches_no_wraparound 10 4 1 (by decide)
    { startPixel := 2, patchSize := 4, startPixelValid := 3, patchSizeValid := 2 }
    (by decide) (by decide)

/-- C6: `inferencePatchSize = 0` is treated as no patching: it is replaced by
`numPixels` (= `inputSize.x`), and for `numPixels > 0` the planner then emits
exactly one pair whose patch window and valid sub-window both equal
`[0, numPixels)`. -/
theorem zero_patch_size_no_patching (numPixels overlap : Nat) (hn : 0 < numPixels) :
    effectiveInferencePatchSize 0 numPixels = numPixels ∧
    planPatches numPixels (effectiveInferencePatchSize 0 numPixels) overlap =
      [{ startPixel := 0, patchSize := numPixels, startPixelValid := 0,
         patchSizeValid := numPixels }] := by
  refine ⟨rfl, ?_⟩
  obtain ⟨m, rfl⟩ : ∃ m, numPixels = m + 1 := ⟨numPixels - 1, by omega⟩
  have hstep : planStep (m + 1) (m + 1) overlap 0 =
      { startPixel := 0, patchSize := m + 1, startPixelValid := 0,
        patchSizeValid := m + 1 } := by
    unfold planStep
    rw [if_pos ⟨rfl, by omega⟩, Nat.sub_zero]
  show planLoop (m + 1) (m + 1) overlap (m + 1) 0 = _
  simp only [planLoop]
  rw [if_pos (Nat.succ_pos m), hstep]
  rw [planLoop_at_end (m + 1) (m + 1) overlap m _ (by dsimp only; omega)]

/-- Witness for C6 at the spec's scenario `numPixels = 5`, `overlap = 1`:
a zero requested patch size yields the single whole-axis patch. -/
theorem zero_patch_size_no_patching_witness :
    effectiveInferencePatchSize 0 5 = 5 ∧
    planPatches 5 (effectiveInferencePatchSize 0 5) 1 =
      [{ startPixel := 0, patchSize := 5, startPixelValid := 0, patchSizeValid := 5 }] :=
  zero_patch_size_no_patching 5 1 (by decide)

/-- C2 counterexample: at this concrete call the model execution throws
(`c10::Error`) on the very first patch, yet `process` does not return a null
result — the output container was already allocated inside the `try` block and
the catch handler only logs, so the allocated buffer is returned. -/
theorem process_model_error_counterexample :
    (process true true true "model" (fun _ => .error (ModelError.c10Error "bad" "stack"))
        (fun v => v) (fun _ => (0 : Int)) ⟨4, 1, 1⟩ ⟨4, 1, 1⟩ DataType.TypeFloat
        "NCHW".toList "NCHW".toList 0 0).1.isSome = true := rfl

/-- C2 (amended): if the per-patch model execution (forward / normalize /
denormalize) throws, the patch loop aborts, the failure is logged with the
model identifier and the exception's diagnostic text, and `process` returns
the already-allocated output buffer in its state at the throw — a partially
filled buffer, not a null result. -/
theorem process_model_error_keeps_buffer {β : Type} (normLoaded denormLoaded : Bool)
    (modelFilename : String)
    (exec : Patch → Except ModelError (TorchDType × (Nat → Nat → Nat → Nat → Int)))
    (conv : Int → β) (initBuf : Nat → β) (inputSize outputSize : Vec3s)
    (modelOutputDataType : DataType) (modelOutputLayout finalLayout : List Char)
    (inferencePatchSize inferencePatchOverlap : Nat)
    (e : ModelError) (bufAtThrow : Nat → β)
    (h : runPatches exec modelOutputDataType conv modelOutputLayout finalLayout outputSize
        (planPatches inputSize.x (effectiveInferencePatchSize inferencePatchSize inputSize.x)
          inferencePatchOverlap) initBuf = .error (e, bufAtThrow)) :
    process true normLoaded denormLoaded modelFilename exec conv initBuf inputSize outputSize
        modelOutputDataType modelOutputLayout finalLayout inferencePatchSize
        inferencePatchOverlap =
      (some bufAtThrow, catchLog modelFilename e) := by
  unfold process
  rw [if_pos rfl, h]

/-- Witness for the amended C2: a model that throws `std::runtime_error` on
the first patch makes `process` return the allocated (here still initial)
buffer together with the catch-handler log. -/
theorem process_model_error_keeps_buffer_witness :
    process true true true "model" (fun _ => .error (ModelError.runtimeError "oops"))
        (fun v => v) (fun _ => (0 : Int)) ⟨4, 1, 1⟩ ⟨4, 1, 1⟩ DataType.TypeFloat
        "NCHW".toList "NCHW".toList 0 0 =
      (some (fun _ => (0 : Int)), catchLog "model" (ModelError.runtimeError "oops")) :=
  process_model_error_keeps_buffer true true "model"
    (fun _ => .error (ModelError.runtimeError "oops")) (fun v => v) (fun _ => (0 : Int))
    ⟨4, 1, 1⟩ ⟨4, 1, 1⟩ DataType.TypeFloat "NCHW".toList "NCHW".toList 0 0
    (ModelError.runtimeError "oops") (fun _ => (0 : Int)) rfl

/-- C5: if no model is loaded, `process` returns a null result, never touches
(or allocates) the output buffer, and logs the no-model diagnostic; no
exception is raised on this path. -/
theorem process_no_model_null {β : Type} (normLoaded denormLoaded : Bool)
    (modelFilename : String)
    (exec : Patch → Except ModelError (TorchDType × (Nat → Nat → Nat → Nat → Int)))
    (conv : Int → β) (initBuf : Nat → β) (inputSize outputSize : Vec3s)
    (modelOutputDataType : DataType) (modelOutputLayout finalLayout : List Char)
    (inferencePatchSize inferencePatchOverlap : Nat) :
    (process false normLoaded denormLoaded modelFilename exec conv initBuf inputSize
        outputSize modelOutputDataType modelOutputLayout finalLayout inferencePatchSize
        inferencePatchOverlap).1 = none ∧
    LogMessage.noModelLoaded ∈
      (process false normLoaded denormLoaded modelFilename exec conv initBuf inputSize
        outputSize modelOutputDataType modelOutputLayout finalLayout inferencePatchSize
        inferencePatchOverlap).2 := by
  unfold process
  simp

/-- C7 counterexample: `modelOutputLayout = "NCHW"` and
`finalLayout = "WNCH"` are layouts over the same token set, but position 0 of
the permutation holds the value 3, so the `if/else if` chain narrows no axis
at all — “exactly one of the three output axes is narrowed” fails at this
call. -/
theorem copy_narrowing_counterexample :
    layoutPermutation "NCHW".toList "WNCH".toList = [3, 0, 1, 2] ∧
    ¬ exactlyOneAxisNarrowed
        (computeOutRanges (layoutPermutation "NCHW".toList "WNCH".toList) ⟨5, 4, 3⟩ 1 0 2)
        ⟨5, 4, 3⟩ 1 0 2 := by
  refine ⟨rfl, ?_⟩
  unfold exactlyOneAxisNarrowed sliceNarrowed lineNarrowed pixelNarrowed
  decide

/-- C7 (amended): at most one output axis is narrowed per call, namely the
axis (slice, line, pixel) whose position (1, 2, 3 respectively) in the
permutation computed from `(modelOutputLayout, finalLayout)` holds the value
3, the other two axes keeping full extent and zero offset; when none of
positions 1..3 holds 3 (the value 3 sits at position 0), no axis is narrowed
and all three keep full extent and zero offset. -/
theorem copy_narrowing_by_permutation (modelOutputLayout finalLayout : List Char)
    (outputSize : Vec3s) (startPixelValid startPixel patchSizeValid : Nat) :
    ((layoutPermutation modelOutputLayout finalLayout).getD 1 0 = 3 →
      sliceNarrowed
        (computeOutRanges (layoutPermutation modelOutputLayout finalLayout) outputSize
          startPixelValid startPixel patchSizeValid)
        outputSize startPixelValid startPixel patchSizeValid) ∧
    ((layoutPermutation modelOutputLayout finalLayout).getD 1 0 ≠ 3 →
      (layoutPermutation modelOutputLayout finalLayout).getD 2 0 = 3 →
      lineNarrowed
        (computeOutRanges (layoutPermutation modelOutputLayout finalLayout) outputSize
          startPixelValid startPixel patchSizeValid)
        outputSize startPixelValid startPixel patchSizeValid) ∧
    ((layoutPermutation modelOutputLayout finalLayout).getD 1 0 ≠ 3 →
      (layoutPermutation modelOutputLayout finalLayout).getD 2 0 ≠ 3 →
      (layoutPermutation modelOutputLayout finalLayout).getD 3 0 = 3 →
      pixelNarrowed
        (computeOutRanges (layoutPermutation modelOutputLayout finalLayout) outputSize
          startPixelValid startPixel patchSizeValid)
        outputSize startPixelValid startPixel patchSizeValid) ∧
    ((layoutPermutation modelOutputLayout finalLayout).getD 1 0 ≠ 3 →
      (layoutPermutation modelOutputLayout finalLayout).getD 2 0 ≠ 3 →
      (layoutPermutation modelOutputLayout finalLayout).getD 3 0 ≠ 3 →
      noAxisNarrowed
        (computeOutRanges (layoutPermutation modelOutputLayout finalLayout) outputSize
          startPixelValid startPixel patchSizeValid)
        outputSize) := by
  unfold computeOutRanges sliceNarrowed lineNarrowed pixelNarrowed noAxisNarrowed
  refine ⟨?_, ?_, ?_, ?_⟩
  · intro h1
    rw [if_pos h1]
    exact ⟨rfl, rfl, rfl, rfl, rfl, rfl, rfl, rfl, rfl⟩
  · intro h1 h2
    rw [if_neg h1, if_pos h2]
    exact ⟨rfl, rfl, rfl, rfl, rfl, rfl, rfl, rfl, rfl⟩
  · intro h1 h2 h3
    rw [if_neg h1, if_neg h2, if_pos h3]
    exact ⟨rfl, rfl, rfl, rfl, rfl, rfl, rfl, rfl, rfl⟩
  · intro h1 h2 h3
    rw [if_neg h1, if_neg h2, if_neg h3]
    exact ⟨rfl, rfl, rfl, rfl, rfl, rfl, rfl, rfl, rfl⟩

/-- Witness for the amended C7: with equal layouts the permutation is the
identity, position 3 holds 3, and exactly the pixel axis is narrowed. -/
theorem copy_narrowing_by_permutation_witness :
    pixelNarrowed
      (computeOutRanges (layoutPermutation "NCHW".toList "NCHW".toList) ⟨8, 4, 2⟩ 1 0 3)
      ⟨8, 4, 2⟩ 1 0 3 :=
  (copy_narrowing_by_permutation "NCHW".toList "NCHW".toList ⟨8, 4, 2⟩ 1 0 3).2.2.1
    (by decide) (by decide) (by decide)

/-- C8: provided the (possibly narrowed) line and pixel ranges stay within
the output extents — which defined C++ behaviour requires, since the accessor
would otherwise be indexed out of bounds — a single `copyPatchToOutput` call
writes exactly the cells whose coordinates lie inside the three computed axis
ranges, each at the fixed row-major address
`slice * outputSize.y * outputSize.x + line * outputSize.x + pixel`, with the
converted accessor value read at `(coordinate - axis offset)` per axis, and
leaves every other in-extent cell unchanged. -/
theorem copyPatchToOutput_cells {β : Type} (conv : Int → β)
    (outAccessor : Nat → Nat → Nat → Nat → Int) (pDataOut : Nat → β)
    (modelOutputLayout finalLayout : List Char) (outputSize : Vec3s)
    (startPixelValid startPixel patchSizeValid : Nat) (r : OutRanges)
    (hr : r = computeOutRanges (layoutPermutation modelOutputLayout finalLayout) outputSize
      startPixelValid startPixel patchSizeValid)
    (hlY : r.outLineEnd ≤ outputSize.y) (hpX : r.outPixelEnd ≤ outputSize.x)
    (s l p : Nat) (_hsz : s < outputSize.z) (hl : l < outputSize.y) (hp : p < outputSize.x) :
    copyPatchToOutput conv outAccessor pDataOut modelOutputLayout finalLayout outputSize
        startPixelValid startPixel patchSizeValid
        (s * outputSize.y * outputSize.x + l * outputSize.x + p) =
      if r.outSliceStart ≤ s ∧ s < r.outSliceEnd ∧ r.outLineStart ≤ l ∧ l < r.outLineEnd ∧
          r.outPixelStart ≤ p ∧ p < r.outPixelEnd then
        conv (outAccessor 0 (s - r.outSliceOffset) (l - r.outLineOffset)
          (p - r.outPixelOffset))
      else pDataOut (s * outputSize.y * outputSize.x + l * outputSize.x + p) := by
  rw [copyPatchToOutput_def, ← hr]
  split_ifs with hin
  · obtain ⟨h1, h2, h3, h4, h5, h6⟩ := hin
    exact sliceLoopRun_hit _ r.outSliceStart r.outSliceEnd r.outLineStart r.outLineEnd
      r.outPixelStart r.outPixelEnd outputSize.x outputSize.y hlY hpX pDataOut
      s l p h1 h2 h3 h4 h5 h6
  · refine sliceLoopRun_miss _ r.outSliceStart r.outSliceEnd r.outLineStart r.outLineEnd
      r.outPixelStart r.outPixelEnd outputSize.x outputSize.y pDataOut _ ?_
    intro s2 l2 q hs1 hs2 hl1 hl2 hq1 hq2 heq
    obtain ⟨he1, he2, he3⟩ := flatAddr_inj outputSize.y outputSize.x s2 l2 q s l p
      (by omega) (by omega) hl hp heq
    exact hin ⟨by omega, by omega, by omega, by omega, by omega, by omega⟩

/-- Witness for C8 with equal layouts (pixel axis narrowed to `[1, 3)`), at
the in-range coordinate `(1, 1, 2)`: the cell receives the converted
accessor sample for that coordinate. -/
theorem copyPatchToOutput_cells_witness :
    copyPatchToOutput (fun v => v) (fun _ s l p => (s * 100 + l * 10 + p : Int))
        (fun _ => (0 : Int)) "NCHW".toList "NCHW".toList ⟨4, 2, 2⟩ 1 0 2
        (1 * 2 * 4 + 1 * 4 + 2) = (112 : Int) := by
  have h := copyPatchToOutput_cells (fun v => v)
    (fun _ s l p => (s * 100 + l * 10 + p : Int)) (fun _ => (0 : Int))
    "NCHW".toList "NCHW".toList ⟨4, 2, 2⟩ 1 0 2 _ rfl (by decide) (by decide)
    1 1 2 (by decide) (by decide) (by decide)
  exact h.trans (by decide)

/-- C9 (implicit): the per-patch copy is dispatched on the model output
tensor's runtime dtype over exactly
`{int8, uint8, int16, int32, int64, float32, float64}`; any dtype outside the
set (after the half-to-float promotion) falls through the `else if` chain:
the patch is silently skipped — the buffer is untouched, no error is raised
or logged, the loop continues with the remaining patches, and that patch's
valid sub-window of the output buffer stays unwritten. -/
theorem unsupported_dtype_silently_skipped {β : Type}
    (exec : Patch → Except ModelError (TorchDType × (Nat → Nat → Nat → Nat → Int)))
    (modelOutputDataType : DataType) (conv : Int → β)
    (modelOutputLayout finalLayout : List Char) (outputSize : Vec3s)
    (p : Patch) (rest : List Patch) (pDataOut : Nat → β)
    (d : TorchDType) (acc : Nat → Nat → Nat → Nat → Int)
    (hexec : exec p = .ok (d, acc))
    (hd : promoteHalf modelOutputDataType d ∉ supportedCopyDTypes) :
    (∀ d2 ∈ supportedCopyDTypes, ∀ (acc2 : Nat → Nat → Nat → Nat → Int) (buf2 : Nat → β),
      dispatchCopy d2 conv acc2 buf2 modelOutputLayout finalLayout outputSize
        p.startPixelValid p.startPixel p.patchSizeValid =
      copyPatchToOutput conv acc2 buf2 modelOutputLayout finalLayout outputSize
        p.startPixelValid p.startPixel p.patchSizeValid) ∧
    dispatchCopy (promoteHalf modelOutputDataType d) conv acc pDataOut modelOutputLayout
      finalLayout outputSize p.startPixelValid p.startPixel p.patchSizeValid = pDataOut ∧
    runPatch exec modelOutputDataType conv modelOutputLayout finalLayout outputSize
      p pDataOut = .ok pDataOut ∧
    runPatches exec modelOutputDataType conv modelOutputLayout finalLayout outputSize
      (p :: rest) pDataOut =
    runPatches exec modelOutputDataType conv modelOutputLayout finalLayout outputSize
      rest pDataOut := by
  have hskip : dispatchCopy (promoteHalf modelOutputDataType d) conv acc pDataOut
      modelOutputLayout finalLayout outputSize p.startPixelValid p.startPixel
      p.patchSizeValid = pDataOut := by
    rcases hpro : promoteHalf modelOutputDataType d with _ | _ | _ | _ | _ | _ | _ | _ | _ <;>
      first
        | rfl
        | (exfalso; rw [hpro] at hd; exact hd (by decide))
  have hrp : runPatch exec modelOutputDataType conv modelOutputLayout finalLayout outputSize
      p pDataOut = .ok pDataOut := by
    unfold runPatch
    rw [hexec]
    dsimp only
    rw [hskip]
  refine ⟨?_, hskip, hrp, ?_⟩
  · intro d2 hd2 acc2 buf2
    simp only [supportedCopyDTypes, List.mem_cons, List.not_mem_nil, or_false] at hd2
    rcases hd2 with h | h | h | h | h | h | h <;> subst h <;> rfl
  · show (match runPatch exec modelOutputDataType conv modelOutputLayout finalLayout
        outputSize p pDataOut with
      | .error e => .error (e, pDataOut)
      | .ok pDataOut2 =>
        runPatches exec modelOutputDataType conv modelOutputLayout finalLayout outputSize
          rest pDataOut2) =
      runPatches exec modelOutputDataType conv modelOutputLayout finalLayout outputSize
        rest pDataOut
    rw [hrp]

/-- Witness for C9: a `bool`-typed model output (promotion not triggered) is
skipped: the patch loop result on `[p]` equals the result on `[]`, and the
buffer passes through `runPatch` unchanged. -/
theorem unsupported_dtype_silently_skipped_witness :
    runPatch (fun _ => .ok (TorchDType.boolType, fun _ _ _ _ => (7 : Int)))
        DataType.TypeFloat (fun v => v) "NCHW".toList "NCHW".toList ⟨4, 1, 1⟩
        { startPixel := 0, patchSize := 4, startPixelValid := 0, patchSizeValid := 4 }
        (fun _ => (0 : Int)) = .ok (fun _ => (0 : Int)) ∧
    runPatches (fun _ => .ok (TorchDType.boolType, fun _ _ _ _ => (7 : Int)))
        DataType.TypeFloat (fun v => v) "NCHW".toList "NCHW".toList ⟨4, 1, 1⟩
        [{ startPixel := 0, patchSize := 4, startPixelValid := 0, patchSizeValid := 4 }]
        (fun _ => (0 : Int)) =
      runPatches (fun _ => .ok (TorchDType.boolType, fun _ _ _ _ => (7 : Int)))
        DataType.TypeFloat (fun v => v) "NCHW".toList "NCHW".toList ⟨4, 1, 1⟩
        [] (fun _ => (0 : Int)) := by
  have h := unsupported_dtype_silently_skipped
    (fun _ => .ok (TorchDType.boolType, fun _ _ _ _ => (7 : Int)))
    DataType.TypeFloat (fun v => v) "NCHW".toList "NCHW".toList ⟨4, 1, 1⟩
    { startPixel := 0, patchSize := 4, startPixelValid := 0, patchSizeValid := 4 }
    [] (fun _ => (0 : Int)) TorchDType.boolType (fun _ _ _ _ => (7 : Int))
    rfl (by decide)
  exact ⟨h.2.2.1, h.2.2.2⟩

end TorchInference
